import Mathlib

/-!
Verification of the mib-converter-app repository: a shallow embedding of the
symbol classifier and profile assembler of `app.py` (functions
`extract_candidates` and `generate_yaml_structure`) and of the incremental
sync worker of `sync.py` (function `lambda_handler`), together with theorems
settling the specification claims about them.

Python strings are modelled as Lean `String`, Python dicts as association
lists with first-match lookup, JSON objects whose values may or may not be
dicts as the inductive type `Info`, and the DynamoDB table as an association
list from path to record with upsert semantics.  Fallible operations (HTTP
fetches) are modelled as `Option`-valued functions; a raised exception in a
pure function is modelled as `Option.none`.
-/

namespace MibConverter

/-! ### String primitives

Python compares strings lexicographically by code point; `sorted` on
`dict.items()` therefore orders entries by their key under this order.
`charListLe` is that order on the underlying character lists. -/

def charListLe : List Char → List Char → Bool
  | [], _ => true
  | _ :: _, [] => false
  | c :: cs, d :: ds =>
      if c.toNat < d.toNat then true
      else if d.toNat < c.toNat then false
      else charListLe cs ds

/-- Python string `<=` (code-point lexicographic). -/
def strLe (a b : String) : Bool := charListLe a.data b.data

theorem charListLe_total : ∀ as bs, charListLe as bs = true ∨ charListLe bs as = true := by
  intro as
  induction as with
  | nil => intro bs; left; rfl
  | cons c cs ih =>
    intro bs
    cases bs with
    | nil => right; rfl
    | cons d ds =>
      simp only [charListLe]
      rcases Nat.lt_trichotomy c.toNat d.toNat with h | h | h
      · left; simp [h]
      · have h2 : ¬ c.toNat < d.toNat := by omega
        have h3 : ¬ d.toNat < c.toNat := by omega
        simp [h2, h3, h]
        exact ih ds
      · right; simp [h]

theorem charListLe_trans : ∀ as bs cs, charListLe as bs = true → charListLe bs cs = true →
    charListLe as cs = true := by
  intro as
  induction as with
  | nil => intros; rfl
  | cons a as ih =>
    intro bs cs hab hbc
    cases bs with
    | nil => simp [charListLe] at hab
    | cons b bs =>
      cases cs with
      | nil => simp [charListLe] at hbc
      | cons c cs =>
        simp only [charListLe] at hab hbc ⊢
        split at hab
        · rename_i h1
          split at hbc
          · rename_i h2
            simp [show a.toNat < c.toNat by omega]
          · split at hbc
            · simp at hbc
            · rename_i h2 h3
              simp [show a.toNat < c.toNat by omega]
        · split at hab
          · simp at hab
          · rename_i h1 h1'
            split at hbc
            · rename_i h2
              simp [show a.toNat < c.toNat by omega]
            · split at hbc
              · simp at hbc
              · rename_i h2 h3
                have hne : ¬ a.toNat < c.toNat := by omega
                have hne' : ¬ c.toNat < a.toNat := by omega
                simp [hne, hne']
                exact ih bs cs hab hbc

/-- `startsChars pre s` : the character list `pre` is an initial segment of `s`
(the model of Python `str.startswith`). -/
def startsChars : List Char → List Char → Bool
  | [], _ => true
  | _ :: _, [] => false
  | a :: as, b :: bs => (a == b) && startsChars as bs

/-- Python `s.startswith(pre)`. -/
def pyStartswith (s pre : String) : Bool := startsChars pre.data s.data

/-- Python `s.endswith(suf)`. -/
def pyEndswith (s suf : String) : Bool := startsChars suf.data.reverse s.data.reverse

/-- `containsChars hay needle` : `needle` occurs as a contiguous substring of
`hay` (the model of Python's `in` operator on strings). -/
def containsChars : List Char → List Char → Bool
  | [], needle => needle.isEmpty
  | h :: t, needle => startsChars needle (h :: t) || containsChars t needle

/-! ### The compiled-MIB JSON model (`app.py`)

`extract_candidates` reads the JSON file produced by the pysmi compiler: a
top-level object mapping each symbol name to a value.  A value is either a
JSON object (a Python dict, which may or may not carry the keys `oid` and
`nodetype`, both string-valued where present) or some non-dict value. -/

inductive Info where
  | dict (oid : Option String) (nodetype : Option String)
  | nondict
deriving Repr, DecidableEq

/-- First-match association-list lookup: the model of `data[symbol]` /
`symbol in data` on a parsed JSON object (keys are unique in a dict, so
first-match agrees with dict lookup). -/
def lookupInfo : List (String × Info) → String → Option Info
  | [], _ => none
  | (k, v) :: rest, s => if k = s then some v else lookupInfo rest s

def dataKeys (data : List (String × Info)) : List String := data.map Prod.fst

/-- One row of the candidate list built by `extract_candidates`. -/
structure Candidate where
  name : String
  oid : String
  nodetype : String
deriving Repr, DecidableEq

/-- The body of the `extract_candidates` loop for one `(symbol, info)` pair:
`isinstance(info, dict) and 'oid' in info and 'nodetype' in info` and
`info['nodetype'] in ['scalar', 'column']` guard the append. -/
def keepEntry (symbol : String) (info : Info) : Option Candidate :=
  match info with
  | .dict (some o) (some nt) =>
      if nt = "scalar" ∨ nt = "column" then some ⟨symbol, o, nt⟩ else none
  | _ => none

/-- The order used by Python's `sorted(data.items())`: lexicographic by key
(keys are unique in a dict, so the value component never decides). -/
def entryLe (a b : String × Info) : Prop := strLe a.1 b.1 = true

instance : DecidableRel entryLe := fun a b => instDecidableEqBool (strLe a.1 b.1) true

instance : IsTotal (String × Info) entryLe :=
  ⟨fun a b => charListLe_total a.1.data b.1.data⟩

instance : IsTrans (String × Info) entryLe :=
  ⟨fun a b c => charListLe_trans a.1.data b.1.data c.1.data⟩

/-- `sorted(data.items())` (insertion sort is a stable sort, like Python's). -/
def sortedItems (data : List (String × Info)) : List (String × Info) :=
  data.insertionSort entryLe

/-- `extract_candidates` of `app.py`: iterate over `sorted(data.items())`,
keep dict entries carrying `oid` and `nodetype` whose `nodetype` is
`scalar` or `column`. -/
def extract_candidates (data : List (String × Info)) : List Candidate :=
  (sortedItems data).filterMap (fun p => keepEntry p.1 p.2)

/-! ### The profile assembler (`app.py`) -/

structure SymbolRef where
  OID : String
  name : String
deriving Repr, DecidableEq

structure MetricEntry where
  MIB : String
  symbol : SymbolRef
deriving Repr, DecidableEq

/-- The document returned by `generate_yaml_structure`: a `metrics` list and
the fixed operator-placeholder `sysobjectid` field — these are its only keys. -/
structure ProfileDoc where
  metrics : List MetricEntry
  sysobjectid : String
deriving Repr, DecidableEq

/-- `data[symbol]['oid']` as a fallible access: `none` models the exception
raised when the value is not a dict or lacks the `oid` key. -/
def oidOfInfo : Info → Option String
  | .dict o _ => o
  | .nondict => none

/-- The `for symbol in selected_symbols` loop of `generate_yaml_structure`:
symbols not present in `data` are skipped (`if symbol in data`), present
symbols contribute `{MIB, symbol: {OID, name}}`; a present symbol whose value
lacks `oid` (or is not a dict) raises, modelled as `none` for the whole run. -/
def genMetrics (data : List (String × Info)) (mib_name : String) :
    List String → Option (List MetricEntry)
  | [] => some []
  | s :: rest =>
    match lookupInfo data s with
    | none => genMetrics data mib_name rest
    | some info =>
      match oidOfInfo info with
      | none => none
      | some o => (genMetrics data mib_name rest).map
          (fun ms => { MIB := mib_name, symbol := ⟨o, s⟩ } :: ms)

/-- `generate_yaml_structure` of `app.py`. -/
def generate_yaml_structure (data : List (String × Info)) (mib_name : String)
    (selected_symbols : List String) : Option ProfileDoc :=
  (genMetrics data mib_name selected_symbols).map
    (fun ms => { metrics := ms, sysobjectid := "1.3.6.1.4.1.CHANGE_THIS" })

/-- The oid recorded for a symbol, for stating what the assembler emits. -/
def oidAt (data : List (String × Info)) (s : String) : String :=
  match lookupInfo data s with
  | some (.dict (some o) _) => o
  | _ => ""

/-! ### The sync worker (`sync.py`)

The DynamoDB table keyed by `path` is modelled as an association list with
upsert (`put_item`) semantics; the GitHub tree listing is the list of its
`path` fields in listing order; the per-item content fetch is an
`Option`-valued function, `none` covering both a non-200 response and a
raised exception (both lead to the item being skipped). -/

structure CacheRecord where
  content : String
  last_updated : Nat
deriving Repr, DecidableEq

/-- The cache table: path → record, unique keys, first match wins. -/
abbrev Cache : Type := List (String × CacheRecord)

/-- The key projection used by the scan with `ProjectionExpression="#p"`:
the set `synced_paths` of paths present in the table. -/
def cacheKeys (c : Cache) : List String := c.map Prod.fst

/-- `table.put_item`: unconditional upsert of the record at `path`. -/
def put_item (c : Cache) (path content : String) (t : Nat) : Cache :=
  (path, ⟨content, t⟩) :: c.filter (fun kv => decide (kv.1 ≠ path))

/-- Record stored at a path, if any. -/
def cacheGet : Cache → String → Option CacheRecord
  | [], _ => none
  | (k, v) :: rest, p => if k = p then some v else cacheGet rest p

/-- The listing filter of step 1: keep paths starting with
`profiles/kentik_snmp/` and ending with `.yml`, in listing order. -/
def all_files (tree : List String) : List String :=
  tree.filter (fun p => pyStartswith p "profiles/kentik_snmp/" && pyEndswith p ".yml")

/-- The presence-only diff `[p for p in all_files if p not in synced_paths]`. -/
def backlogOf (tree : List String) (cache : Cache) : List String :=
  (all_files tree).filter (fun p => decide (p ∉ cacheKeys cache))

/-- The fixed per-run quota (`[:20]`). -/
def syncQuota : Nat := 20

/-- `to_sync`: the first `syncQuota` backlog entries in listing order. -/
def to_syncOf (tree : List String) (cache : Cache) : List String :=
  (backlogOf tree cache).take syncQuota

/-- The body of the `for path in to_sync` loop: on a successful fetch, upsert
the record (path, content, now); on failure (non-200 or exception),
leave the cache unchanged and continue. -/
def syncOne (fetch : String → Option String) (now : Nat) (c : Cache) (path : String) : Cache :=
  match fetch path with
  | some content => put_item c path content now
  | none => c

/-- The dict returned by `lambda_handler`. -/
structure SyncResult where
  status : String
  count : Nat
deriving Repr, DecidableEq

/-- `lambda_handler` of `sync.py`: filter the listing, diff against the cache
keys, take the first 20, fetch-and-upsert each, and return
`{"status": "partial_sync_complete", "count": len(to_sync)}`. -/
def lambda_handler (tree : List String) (fetch : String → Option String) (now : Nat)
    (cache : Cache) : Cache × SyncResult :=
  ((to_syncOf tree cache).foldl (syncOne fetch now) cache,
   { status := "partial_sync_complete", count := (to_syncOf tree cache).length })

/-! ### The reference selector

`select` is described by the specification but has no implementation among
the repository's source files; it is modelled from the spec below. -/

/-- Modelled from the spec: the fixed domain stopword set dropped during
normalization (generic schema-suffix tokens and version tokens); the
repository source contains no implementation of the Reference Selector. -/
def stopwords : List String := ["mib", "smi", "v1", "v2", "v2c", "v3"]

/-- Modelled from the spec: the fixed fallback path returned when the
candidate list is empty or the best score is zero. -/
def fallbackPath : String := "profiles/kentik_snmp/generic/generic.yml"

/-- Modelled from the spec: normalization of the target name — lowercase,
replace `-`/`_` with spaces, tokenize on whitespace, drop stopwords. -/
def normalizeTarget (targetName : String) : List String :=
  (((targetName.data.map (fun c =>
        if c = '-' ∨ c = '_' then ' ' else c.toLower)).splitOn ' ').map
      (fun cs => String.mk cs)).filter
    (fun tok => decide (tok ≠ "" ∧ tok ∉ stopwords))

/-- Modelled from the spec: a candidate's score is the number of target
tokens occurring as a substring of the lowercased path. -/
def scoreOf (tokens : List String) (path : String) : Nat :=
  (tokens.filter (fun t => containsChars (path.data.map Char.toLower) t.data)).length

/-- Modelled from the spec: keep the incumbent unless the challenger scores
strictly higher, or ties on score with a strictly shorter path — this yields
max score, shortest-path tie-break, then first-occurrence stability. -/
def pickBetter (tokens : List String) (best cand : String) : String :=
  if scoreOf tokens cand > scoreOf tokens best then cand
  else if scoreOf tokens cand = scoreOf tokens best ∧ cand.length < best.length then cand
  else best

/-- Modelled from the spec: `select(targetName, candidatePaths)` — fallback on
an empty candidate list or a best score of zero, otherwise the best candidate. -/
def select (targetName : String) (candidatePaths : List String) : String :=
  match candidatePaths with
  | [] => fallbackPath
  | c :: cs =>
    let tokens := normalizeTarget targetName
    let best := cs.foldl (pickBetter tokens) c
    if scoreOf tokens best = 0 then fallbackPath else best

/-! ### Concrete instances used by counterexamples and witnesses -/

/-- The classifier example of the spec: an `ifInOctets` column and an
`ifTable` table node. -/
def dataClassEx : List (String × Info) :=
  [("ifInOctets", .dict (some "1.3.6.1.2.1.2.2.1.10") (some "column")),
   ("ifTable", .dict (some "1.3.6.1.2.1.2.2") (some "table"))]

/-- A symbol table holding a single notification symbol. -/
def dataTrapEx : List (String × Info) :=
  [("linkDown", .dict (some "1.3.6.1.6.3.1.1.5.3") (some "notification"))]

/-- A one-metric symbol table for assembler witnesses. -/
def dataAsm : List (String × Info) :=
  [("ifInOctets", .dict (some "1.3.6.1.2.1.2.2.1.10") (some "column"))]

/-- A two-metric symbol table for assembler witnesses. -/
def dataAsm2 : List (String × Info) :=
  [("aVal", .dict (some "1.1") (some "scalar")),
   ("bVal", .dict (some "1.2") (some "scalar"))]

def emptyCache : Cache := []

def cacheW : Cache := [("profiles/kentik_snmp/cisco/a.yml", ⟨"old", 0⟩)]

/-- A two-path authoritative listing. -/
def treeW : List String :=
  ["profiles/kentik_snmp/cisco/a.yml", "profiles/kentik_snmp/cisco/b.yml"]

/-- A one-path authoritative listing (backlog below the quota). -/
def treeTiny : List String := ["profiles/kentik_snmp/cisco/a.yml"]

/-- A 25-path authoritative listing (backlog above the quota of 20). -/
def tree25 : List String :=
  ["profiles/kentik_snmp/p01.yml", "profiles/kentik_snmp/p02.yml",
   "profiles/kentik_snmp/p03.yml", "profiles/kentik_snmp/p04.yml",
   "profiles/kentik_snmp/p05.yml", "profiles/kentik_snmp/p06.yml",
   "profiles/kentik_snmp/p07.yml", "profiles/kentik_snmp/p08.yml",
   "profiles/kentik_snmp/p09.yml", "profiles/kentik_snmp/p10.yml",
   "profiles/kentik_snmp/p11.yml", "profiles/kentik_snmp/p12.yml",
   "profiles/kentik_snmp/p13.yml", "profiles/kentik_snmp/p14.yml",
   "profiles/kentik_snmp/p15.yml", "profiles/kentik_snmp/p16.yml",
   "profiles/kentik_snmp/p17.yml", "profiles/kentik_snmp/p18.yml",
   "profiles/kentik_snmp/p19.yml", "profiles/kentik_snmp/p20.yml",
   "profiles/kentik_snmp/p21.yml", "profiles/kentik_snmp/p22.yml",
   "profiles/kentik_snmp/p23.yml", "profiles/kentik_snmp/p24.yml",
   "profiles/kentik_snmp/p25.yml"]

/-- A fetch that always succeeds with fixed content. -/
def fetchConst : String → Option String := fun _ => some "content"

/-- A fetch that always fails. -/
def fetchNone : String → Option String := fun _ => none

/-- A fetch that succeeds for one path of `treeW` and fails for the other. -/
def fetchW : String → Option String :=
  fun p => if p = "profiles/kentik_snmp/cisco/a.yml" then some "AAA" else none

/-! ### Helper lemmas -/

theorem lookupInfo_eq_none {data : List (String × Info)} {s : String} :
    lookupInfo data s = none ↔ s ∉ dataKeys data := by
  induction data with
  | nil => simp [lookupInfo, dataKeys]
  | cons kv rest ih =>
    obtain ⟨k, v⟩ := kv
    by_cases h : k = s
    · subst h
      simp [lookupInfo, dataKeys]
    · simp [lookupInfo, dataKeys, h, Ne.symm h] at ih ⊢
      exact ih

theorem keepEntry_name {s : String} {i : Info} {c : Candidate}
    (h : keepEntry s i = some c) : c.name = s := by
  cases i with
  | nondict => simp [keepEntry] at h
  | dict o nt =>
    cases o with
    | none => simp [keepEntry] at h
    | some o' =>
      cases nt with
      | none => simp [keepEntry] at h
      | some nt' =>
        simp only [keepEntry] at h
        split at h
        · cases h; rfl
        · cases h

theorem keepEntry_nodetype {s : String} {i : Info} {c : Candidate}
    (h : keepEntry s i = some c) : c.nodetype = "scalar" ∨ c.nodetype = "column" := by
  cases i with
  | nondict => simp [keepEntry] at h
  | dict o nt =>
    cases o with
    | none => simp [keepEntry] at h
    | some o' =>
      cases nt with
      | none => simp [keepEntry] at h
      | some nt' =>
        simp only [keepEntry] at h
        split at h
        · rename_i hnt
          cases h
          exact hnt
        · cases h

theorem mem_cacheKeys_put {c : Cache} {p q content : String} {t : Nat} :
    p ∈ cacheKeys (put_item c q content t) ↔ p = q ∨ p ∈ cacheKeys c := by
  simp only [cacheKeys, put_item, List.map_cons, List.mem_cons]
  constructor
  · rintro (h | h)
    · exact Or.inl h
    · right
      obtain ⟨kv, hkv, rfl⟩ := List.mem_map.1 h
      exact List.mem_map_of_mem _ (List.mem_of_mem_filter hkv)
  · rintro (rfl | h)
    · exact Or.inl rfl
    · by_cases hpq : p = q
      · exact Or.inl hpq
      · right
        obtain ⟨kv, hkv, rfl⟩ := List.mem_map.1 h
        exact List.mem_map_of_mem _ (List.mem_filter.2 ⟨hkv, by simpa using hpq⟩)

theorem mem_cacheKeys_syncOne {fetch : String → Option String} {now : Nat}
    {c : Cache} {p q : String} :
    p ∈ cacheKeys (syncOne fetch now c q) ↔
      p ∈ cacheKeys c ∨ (p = q ∧ (fetch q).isSome) := by
  unfold syncOne
  cases hf : fetch q with
  | none => simp [hf]
  | some content => simp [hf, mem_cacheKeys_put, or_comm]

theorem mem_cacheKeys_foldl {fetch : String → Option String} {now : Nat} :
    ∀ (l : List String) (c : Cache) (p : String),
      p ∈ cacheKeys (l.foldl (syncOne fetch now) c) ↔
        p ∈ cacheKeys c ∨ (p ∈ l ∧ (fetch p).isSome) := by
  intro l
  induction l with
  | nil => simp
  | cons q rest ih =>
    intro c p
    simp only [List.foldl_cons, ih, mem_cacheKeys_syncOne, List.mem_cons]
    constructor
    · rintro ((h | ⟨rfl, hs⟩) | ⟨hm, hs⟩)
      · exact Or.inl h
      · exact Or.inr ⟨Or.inl rfl, hs⟩
      · exact Or.inr ⟨Or.inr hm, hs⟩
    · rintro (h | ⟨(rfl | hm), hs⟩)
      · exact Or.inl (Or.inl h)
      · exact Or.inl (Or.inr ⟨rfl, hs⟩)
      · exact Or.inr ⟨hm, hs⟩

theorem cacheGet_filter_ne {c : Cache} {p q : String} (h : p ≠ q) :
    cacheGet (c.filter (fun kv => decide (kv.1 ≠ q))) p = cacheGet c p := by
  induction c with
  | nil => rfl
  | cons kv rest ih =>
    obtain ⟨k, v⟩ := kv
    simp only [ne_eq, decide_not] at ih ⊢
    by_cases hkq : k = q
    · subst hkq
      have hkp : ¬ (k = p) := fun hc => h hc.symm
      simp [cacheGet, List.filter_cons, hkp, ih]
    · by_cases hkp : k = p
      · subst hkp
        simp [cacheGet, List.filter_cons, hkq]
      · simp [cacheGet, List.filter_cons, hkq, hkp, ih]

theorem cacheGet_put_self {c : Cache} {q content : String} {t : Nat} :
    cacheGet (put_item c q content t) q = some ⟨content, t⟩ := by
  simp [put_item, cacheGet]

theorem cacheGet_put_ne {c : Cache} {p q content : String} {t : Nat} (h : p ≠ q) :
    cacheGet (put_item c q content t) p = cacheGet c p := by
  simp only [put_item, cacheGet]
  rw [if_neg (fun hc : q = p => h hc.symm), cacheGet_filter_ne h]

theorem cacheGet_syncOne_ne {fetch : String → Option String} {now : Nat}
    {c : Cache} {p q : String} (h : p ≠ q) :
    cacheGet (syncOne fetch now c q) p = cacheGet c p := by
  unfold syncOne
  cases fetch q with
  | none => rfl
  | some content => exact cacheGet_put_ne h

theorem cacheGet_foldl_not_mem {fetch : String → Option String} {now : Nat} :
    ∀ (l : List String) (c : Cache) (p : String), p ∉ l →
      cacheGet (l.foldl (syncOne fetch now) c) p = cacheGet c p := by
  intro l
  induction l with
  | nil => intro c p _; rfl
  | cons q rest ih =>
    intro c p hp
    have hpq : p ≠ q := fun hc => hp (hc ▸ List.mem_cons_self q rest)
    have hpr : p ∉ rest := fun hc => hp (List.mem_cons_of_mem q hc)
    simp only [List.foldl_cons]
    rw [ih _ _ hpr, cacheGet_syncOne_ne hpq]

theorem cacheGet_foldl_mem {fetch : String → Option String} {now : Nat} :
    ∀ (l : List String) (c : Cache) (p content : String), p ∈ l →
      fetch p = some content →
      cacheGet (l.foldl (syncOne fetch now) c) p = some ⟨content, now⟩ := by
  intro l
  induction l with
  | nil => intro c p content hp _; cases hp
  | cons q rest ih =>
    intro c p content hp hf
    by_cases hpr : p ∈ rest
    · exact ih _ _ _ hpr hf
    · have hpq : p = q := by
        rcases List.mem_cons.1 hp with h | h
        · exact h
        · exact absurd h hpr
      subst hpq
      simp only [List.foldl_cons]
      rw [cacheGet_foldl_not_mem _ _ _ hpr]
      unfold syncOne
      rw [hf]
      exact cacheGet_put_self

theorem genMetrics_spec (data : List (String × Info)) (mib : String) :
    ∀ (selected : List String),
      (∀ s ∈ selected, s ∈ dataKeys data →
          ∃ o nt, lookupInfo data s = some (.dict (some o) nt)) →
      genMetrics data mib selected =
        some ((selected.filter (fun s => decide (s ∈ dataKeys data))).map
          (fun s => { MIB := mib, symbol := ⟨oidAt data s, s⟩ })) := by
  intro selected
  induction selected with
  | nil => intro _; rfl
  | cons s rest ih =>
    intro h
    have hrest := ih (fun x hx => h x (List.mem_cons_of_mem s hx))
    by_cases hk : s ∈ dataKeys data
    · obtain ⟨o, nt, hlook⟩ := h s (List.mem_cons_self s rest) hk
      simp only [genMetrics, hlook, oidOfInfo, hrest, Option.map_some]
      simp [hk, oidAt, hlook]
    · have hnone : lookupInfo data s = none := lookupInfo_eq_none.2 hk
      simp only [genMetrics, hnone, hrest]
      simp [hk]

theorem foldl_pickBetter_mem (tokens : List String) :
    ∀ (l : List String) (acc : String),
      l.foldl (pickBetter tokens) acc = acc ∨ l.foldl (pickBetter tokens) acc ∈ l := by
  intro l
  induction l with
  | nil => intro acc; exact Or.inl rfl
  | cons c cs ih =>
    intro acc
    simp only [List.foldl_cons]
    rcases ih (pickBetter tokens acc c) with h | h
    · rw [h]
      unfold pickBetter
      split
      · exact Or.inr (List.mem_cons_self c cs)
      · split
        · exact Or.inr (List.mem_cons_self c cs)
        · exact Or.inl rfl
    · exact Or.inr (List.mem_cons_of_mem c h)

theorem genMetrics_MIB (data : List (String × Info)) (mib : String) :
    ∀ (sel : List String) (ms : List MetricEntry), genMetrics data mib sel = some ms →
      ∀ m ∈ ms, m.MIB = mib := by
  intro sel
  induction sel with
  | nil =>
    intro ms hms m hm
    cases hms
    cases hm
  | cons s rest ih =>
    intro ms hms m hm
    cases hl : lookupInfo data s with
    | none =>
      simp only [genMetrics, hl] at hms
      exact ih ms hms m hm
    | some info =>
      cases ho : oidOfInfo info with
      | none =>
        simp only [genMetrics, hl, ho] at hms
        exact Option.noConfusion hms
      | some o =>
        cases hrest : genMetrics data mib rest with
        | none =>
          simp only [genMetrics, hl, ho, hrest, Option.map] at hms
          exact Option.noConfusion hms
        | some ms' =>
          simp only [genMetrics, hl, ho, hrest] at hms
          simp only [Option.map, Option.bind] at hms
          simp only [Option.some.injEq] at hms
          subst hms
          rcases List.mem_cons.1 hm with rfl | hm'
          · rfl
          · exact ih ms' hrest m hm'

/-! ### Claims -/

/-- C1, counterexample: on a symbol table holding a single notification
symbol, `extract_candidates` returns the empty list — the notification entry
is not placed in any traps bucket (there is none); the classifier simply
drops it, so no traps list can ever be populated from it. -/
theorem C1_counterexample : extract_candidates dataTrapEx = [] := by decide

/-- C1, amended: entries whose nodeType is `notification` or `trap` are
dropped by the classifier (every surviving candidate is a `scalar` or a
`column`), and the assembler emits only metric entries `{MIB, symbol}` —
its output document consists of exactly a `metrics` list and the fixed
`sysobjectid` placeholder, with no traps list and no descriptions. -/
theorem C1_theorem :
    (∀ (data : List (String × Info)) (c : Candidate), c ∈ extract_candidates data →
        c.nodetype = "scalar" ∨ c.nodetype = "column") ∧
    (∀ (s o nt : String), nt = "notification" ∨ nt = "trap" →
        keepEntry s (.dict (some o) (some nt)) = none) ∧
    (∀ (data : List (String × Info)) (mib : String) (sel : List String) (doc : ProfileDoc),
        generate_yaml_structure data mib sel = some doc →
        doc.sysobjectid = "1.3.6.1.4.1.CHANGE_THIS" ∧ ∀ m ∈ doc.metrics, m.MIB = mib) := by
  refine ⟨?_, ?_, ?_⟩
  · intro data c hc
    obtain ⟨p, _, hp⟩ := List.mem_filterMap.1 hc
    exact keepEntry_nodetype hp
  · rintro s o nt (rfl | rfl) <;> rfl
  · intro data mib sel doc hdoc
    unfold generate_yaml_structure at hdoc
    cases hgen : genMetrics data mib sel with
    | none =>
      rw [hgen] at hdoc
      exact Option.noConfusion hdoc
    | some ms =>
      rw [hgen] at hdoc
      simp only [Option.map, Option.bind, Option.some.injEq] at hdoc
      subst hdoc
      exact ⟨rfl, genMetrics_MIB data mib sel ms hgen⟩

/-- C1, witness for the amended theorem: the surviving candidate of the
spec's classifier example is a column, and a concrete assembler run yields
the placeholder and `MIB`-tagged metric entries. -/
theorem C1_witness :
    (⟨"ifInOctets", "1.3.6.1.2.1.2.2.1.10", "column"⟩ : Candidate).nodetype = "scalar" ∨
    (⟨"ifInOctets", "1.3.6.1.2.1.2.2.1.10", "column"⟩ : Candidate).nodetype = "column" :=
  C1_theorem.1 dataClassEx _ (by decide)

/-- C5: the classifier emits candidates in name-sorted order; dict entries
missing `oid` (or `nodetype`) are dropped silently; only `scalar`/`column`
node types are kept; non-dict entries are skipped; and on the spec's
two-entry example the result is exactly the `ifInOctets` metric candidate,
`ifTable` dropped and no trap entry of any kind emitted. -/
theorem C5_theorem :
    (∀ data : List (String × Info),
        List.Pairwise (fun a b : Candidate => strLe a.name b.name = true)
          (extract_candidates data)) ∧
    (∀ (s : String) (nt : Option String), keepEntry s (.dict none nt) = none) ∧
    (∀ (s o : String), keepEntry s (.dict (some o) none) = none) ∧
    (∀ (s o nt : String), ¬ (nt = "scalar" ∨ nt = "column") →
        keepEntry s (.dict (some o) (some nt)) = none) ∧
    (∀ s : String, keepEntry s .nondict = none) ∧
    extract_candidates dataClassEx =
      [⟨"ifInOctets", "1.3.6.1.2.1.2.2.1.10", "column"⟩] := by
  refine ⟨?_, ?_, ?_, ?_, ?_, by decide⟩
  · intro data
    apply List.Pairwise.filterMap (fun p => keepEntry p.1 p.2)
      (fun a a' hle b hb b' hb' => ?_)
      (List.sorted_insertionSort entryLe data)
    rw [keepEntry_name hb, keepEntry_name hb']
    exact hle
  · intro s nt; rfl
  · intro s o; rfl
  · intro s o nt hnt
    show (if nt = "scalar" ∨ nt = "column" then some (⟨s, o, nt⟩ : Candidate) else none) = none
    rw [if_neg hnt]
  · intro s; rfl

/-- C5, witness: a `table` node type is neither `scalar` nor `column`, so
the spec example's `ifTable` entry maps to no candidate. -/
theorem C5_witness :
    keepEntry "ifTable" (.dict (some "1.3.6.1.2.1.2.2") (some "table")) = none :=
  C5_theorem.2.2.2.1 "ifTable" "1.3.6.1.2.1.2.2" "table" (by decide)

/-- C8: when every selected symbol is present in the compiled table with an
`oid` (as every classifier-produced candidate is), the assembler emits
exactly one `{MIB, symbol: {OID, name}}` entry per selected symbol, in a
document whose only other field is the operator-filled `sysobjectid`
placeholder. -/
theorem C8_theorem (data : List (String × Info)) (mib : String) (selected : List String)
    (h : ∀ s ∈ selected, ∃ o nt, lookupInfo data s = some (.dict (some o) nt)) :
    generate_yaml_structure data mib selected =
      some { metrics := selected.map
               (fun s => { MIB := mib, symbol := ⟨oidAt data s, s⟩ }),
             sysobjectid := "1.3.6.1.4.1.CHANGE_THIS" } := by
  have h' : ∀ s ∈ selected, s ∈ dataKeys data →
      ∃ o nt, lookupInfo data s = some (.dict (some o) nt) := fun s hs _ => h s hs
  have hfil : selected.filter (fun s => decide (s ∈ dataKeys data)) = selected := by
    apply List.filter_eq_self.2
    intro s hs
    obtain ⟨o, nt, hl⟩ := h s hs
    have hk : s ∈ dataKeys data := by
      by_contra hc
      rw [lookupInfo_eq_none.2 hc] at hl
      cases hl
    simpa using hk
  unfold generate_yaml_structure
  rw [genMetrics_spec data mib selected h', hfil]
  rfl

/-- C8, witness: one selected metric yields exactly one shaped entry plus
the placeholder field. -/
theorem C8_witness :
    generate_yaml_structure dataAsm "IF-MIB" ["ifInOctets"] =
      some { metrics := [{ MIB := "IF-MIB",
                           symbol := ⟨"1.3.6.1.2.1.2.2.1.10", "ifInOctets"⟩ }],
             sysobjectid := "1.3.6.1.4.1.CHANGE_THIS" } :=
  C8_theorem dataAsm "IF-MIB" ["ifInOctets"] (by
    intro s hs
    rw [List.mem_singleton] at hs
    subst hs
    exact ⟨"1.3.6.1.2.1.2.2.1.10", some "column", rfl⟩)

/-- C10: selected symbols absent from the compiled table are silently
filtered out (no error, no placeholder entry), the emitted metrics follow
the order of the selected-symbol list, and a symbol selected k times is
emitted k times: the output is exactly the presence-filtered selection
mapped to shaped entries. -/
theorem C10_theorem (data : List (String × Info)) (mib : String) (selected : List String)
    (h : ∀ s ∈ selected, s ∈ dataKeys data →
        ∃ o nt, lookupInfo data s = some (.dict (some o) nt)) :
    generate_yaml_structure data mib selected =
      some { metrics := (selected.filter (fun s => decide (s ∈ dataKeys data))).map
               (fun s => { MIB := mib, symbol := ⟨oidAt data s, s⟩ }),
             sysobjectid := "1.3.6.1.4.1.CHANGE_THIS" } := by
  unfold generate_yaml_structure
  rw [genMetrics_spec data mib selected h]
  rfl

/-- C10, witness: selecting `["bVal", "zz", "aVal", "aVal"]` against a table
holding only `aVal` and `bVal` silently drops `zz`, keeps selection order
(`bVal` before `aVal`, not name-sorted), and duplicates `aVal` twice. -/
theorem C10_witness :
    generate_yaml_structure dataAsm2 "T-MIB" ["bVal", "zz", "aVal", "aVal"] =
      some { metrics := [{ MIB := "T-MIB", symbol := ⟨"1.2", "bVal"⟩ },
                         { MIB := "T-MIB", symbol := ⟨"1.1", "aVal"⟩ },
                         { MIB := "T-MIB", symbol := ⟨"1.1", "aVal"⟩ }],
             sysobjectid := "1.3.6.1.4.1.CHANGE_THIS" } := by
  have h : ∀ s ∈ ["bVal", "zz", "aVal", "aVal"], s ∈ dataKeys dataAsm2 →
      ∃ o nt, lookupInfo dataAsm2 s = some (.dict (some o) nt) := by
    intro s _ hk
    simp only [dataAsm2, dataKeys, List.map_cons, List.map_nil, List.mem_cons,
      List.not_mem_nil, or_false] at hk
    rcases hk with rfl | rfl
    · exact ⟨"1.1", some "scalar", rfl⟩
    · exact ⟨"1.2", some "scalar", rfl⟩
  have := C10_theorem dataAsm2 "T-MIB" ["bVal", "zz", "aVal", "aVal"] h
  rw [this]
  rfl

/-- C2, counterexample: the handler's returned status is the same constant
string whether the backlog (1 item) fits the quota of 20 or exceeds it
(25 items), so no status value distinguishes complete from partial runs; and
with every per-item fetch failing, the handler still reports `count = 1`
although the cache received nothing — the count is of items attempted, not
items actually synced. -/
theorem C2_counterexample :
    (backlogOf treeTiny emptyCache).length ≤ syncQuota ∧
    syncQuota < (backlogOf tree25 emptyCache).length ∧
    (lambda_handler treeTiny fetchNone 0 emptyCache).2.status =
      (lambda_handler tree25 fetchNone 0 emptyCache).2.status ∧
    (lambda_handler treeTiny fetchNone 0 emptyCache).2.count = 1 ∧
    (lambda_handler treeTiny fetchNone 0 emptyCache).1 = emptyCache :=
  ⟨by decide, by decide, rfl, by decide, by decide⟩

/-- C2, amended: every run returns the constant status string
`partial_sync_complete` — regardless of whether the starting backlog fits
the per-run quota — together with `count = min(backlog size, 20)`, the
number of backlog items attempted in that run (failed fetches included). -/
theorem C2_theorem (tree : List String) (fetch : String → Option String) (now : Nat)
    (cache : Cache) :
    (lambda_handler tree fetch now cache).2.status = "partial_sync_complete" ∧
    (lambda_handler tree fetch now cache).2.count =
      min (backlogOf tree cache).length syncQuota := by
  refine ⟨rfl, ?_⟩
  show (to_syncOf tree cache).length = _
  rw [to_syncOf, List.length_take]
  exact Nat.min_comm _ _

/-- C3: the backlog is exactly the prefix/suffix-filtered authoritative
listing minus the cached key set (presence-only), kept in listing order
(a sublist of the filtered listing), and the run processes exactly its first
`min(backlog size, 20)` entries: the final cache is the fold of the per-item
step over precisely `to_sync = take 20 backlog`. -/
theorem C3_theorem (tree : List String) (fetch : String → Option String) (now : Nat)
    (cache : Cache) :
    (∀ p, p ∈ backlogOf tree cache ↔ p ∈ all_files tree ∧ p ∉ cacheKeys cache) ∧
    List.Sublist (backlogOf tree cache) (all_files tree) ∧
    to_syncOf tree cache = (backlogOf tree cache).take syncQuota ∧
    (to_syncOf tree cache).length = min (backlogOf tree cache).length syncQuota ∧
    (lambda_handler tree fetch now cache).1 =
      (to_syncOf tree cache).foldl (syncOne fetch now) cache := by
  refine ⟨?_, List.filter_sublist _, rfl, ?_, rfl⟩
  · intro p
    simp [backlogOf, List.mem_filter]
  · rw [to_syncOf, List.length_take]
    exact Nat.min_comm _ _

/-- C3, witness: on the two-path listing with an empty cache, the backlog is
the full filtered listing and both paths are processed. -/
theorem C3_witness :
    "profiles/kentik_snmp/cisco/a.yml" ∈ backlogOf treeW emptyCache ↔
      "profiles/kentik_snmp/cisco/a.yml" ∈ all_files treeW ∧
      "profiles/kentik_snmp/cisco/a.yml" ∉ cacheKeys emptyCache :=
  (C3_theorem treeW fetchConst 0 emptyCache).1 "profiles/kentik_snmp/cisco/a.yml"

/-- C4: over an unchanged corpus whose backlog fits the quota, starting from
a cache drawn from that corpus and with every fetch succeeding, one run
already brings the cache key set to exactly the authoritative filtered path
set, a second run leaves it there while syncing zero items, and a third run
also syncs zero; the starting keys are all preserved (monotone growth). -/
theorem C4_theorem (tree : List String) (fetch : String → Option String)
    (n1 n2 n3 : Nat) (cache : Cache)
    (hfetch : ∀ p ∈ all_files tree, (fetch p).isSome = true)
    (hsub : ∀ p ∈ cacheKeys cache, p ∈ all_files tree)
    (hquota : (backlogOf tree cache).length ≤ syncQuota) :
    (∀ p, p ∈ cacheKeys (lambda_handler tree fetch n1 cache).1 ↔ p ∈ all_files tree) ∧
    (∀ p, p ∈ cacheKeys
        (lambda_handler tree fetch n2 (lambda_handler tree fetch n1 cache).1).1 ↔
        p ∈ all_files tree) ∧
    (lambda_handler tree fetch n2 (lambda_handler tree fetch n1 cache).1).2.count = 0 ∧
    (lambda_handler tree fetch n3
        (lambda_handler tree fetch n2 (lambda_handler tree fetch n1 cache).1).1).2.count = 0 ∧
    (∀ p ∈ cacheKeys cache, p ∈ cacheKeys (lambda_handler tree fetch n1 cache).1) := by
  have hts : to_syncOf tree cache = backlogOf tree cache :=
    List.take_of_length_le hquota
  have hkeys1 : ∀ p, p ∈ cacheKeys (lambda_handler tree fetch n1 cache).1 ↔
      p ∈ all_files tree := by
    intro p
    show p ∈ cacheKeys ((to_syncOf tree cache).foldl (syncOne fetch n1) cache) ↔ _
    rw [mem_cacheKeys_foldl, hts]
    constructor
    · rintro (h | ⟨hm, _⟩)
      · exact hsub p h
      · exact (List.mem_filter.1 hm).1
    · intro hp
      by_cases hk : p ∈ cacheKeys cache
      · exact Or.inl hk
      · exact Or.inr ⟨List.mem_filter.2 ⟨hp, by simpa using hk⟩, hfetch p hp⟩
  have hempty : backlogOf tree (lambda_handler tree fetch n1 cache).1 = [] := by
    apply List.filter_eq_nil_iff.2
    intro p hp
    simp [(hkeys1 p).2 hp]
  have hrun2 : lambda_handler tree fetch n2 (lambda_handler tree fetch n1 cache).1 =
      ((lambda_handler tree fetch n1 cache).1, ⟨"partial_sync_complete", 0⟩) := by
    rw [lambda_handler, to_syncOf, hempty]
    rfl
  have hempty3 : ∀ n, lambda_handler tree fetch n (lambda_handler tree fetch n1 cache).1 =
      ((lambda_handler tree fetch n1 cache).1, ⟨"partial_sync_complete", 0⟩) := by
    intro n
    rw [lambda_handler, to_syncOf, hempty]
    rfl
  refine ⟨hkeys1, ?_, ?_, ?_, fun p hp => (hkeys1 p).2 (hsub p hp)⟩
  · intro p
    rw [hrun2]
    exact hkeys1 p
  · rw [hrun2]
  · rw [hrun2]
    exact congrArg (fun r => r.2.count) (hempty3 n3)

/-- C4, witness: two fresh paths, an always-succeeding fetch, an empty cache
— after one run the cache keys are exactly the authoritative set. -/
theorem C4_witness :
    (∀ p ∈ all_files treeW, (fetchConst p).isSome = true) ∧
    (∀ p ∈ cacheKeys emptyCache, p ∈ all_files treeW) ∧
    (backlogOf treeW emptyCache).length ≤ syncQuota ∧
    (∀ p, p ∈ cacheKeys (lambda_handler treeW fetchConst 1 emptyCache).1 ↔
        p ∈ all_files treeW) :=
  ⟨fun _ _ => rfl, by decide, by decide,
   (C4_theorem treeW fetchConst 1 2 3 emptyCache (fun _ _ => rfl) (by decide) (by decide)).1⟩

/-- C6: the sync worker only adds or overwrites records — every cache key
present before a run is still present after it. -/
theorem C6_theorem (tree : List String) (fetch : String → Option String) (now : Nat)
    (cache : Cache) (p : String) (hp : p ∈ cacheKeys cache) :
    p ∈ cacheKeys (lambda_handler tree fetch now cache).1 := by
  show p ∈ cacheKeys ((to_syncOf tree cache).foldl (syncOne fetch now) cache)
  exact (mem_cacheKeys_foldl _ _ _).2 (Or.inl hp)

/-- C6, witness: a pre-existing key survives a run that also fetches new
paths. -/
theorem C6_witness :
    "profiles/kentik_snmp/cisco/a.yml" ∈
      cacheKeys (lambda_handler treeW fetchConst 7 cacheW).1 :=
  C6_theorem treeW fetchConst 7 cacheW "profiles/kentik_snmp/cisco/a.yml" (by decide)

/-- C7: a successfully fetched selected path is upserted with the current
timestamp; a path whose fetch fails is skipped (it stays absent unless it
was already cached) while the rest of the run proceeds; and the value
returned to the caller is identical for any fetch behaviour — a per-item
failure never aborts the run and never surfaces as an error. -/
theorem C7_theorem (tree : List String) (fetch : String → Option String) (now : Nat)
    (cache : Cache) :
    (∀ p content, p ∈ to_syncOf tree cache → fetch p = some content →
        cacheGet (lambda_handler tree fetch now cache).1 p = some ⟨content, now⟩) ∧
    (∀ p, fetch p = none → p ∉ cacheKeys cache →
        p ∉ cacheKeys (lambda_handler tree fetch now cache).1) ∧
    (∀ fetch2 : String → Option String,
        (lambda_handler tree fetch now cache).2 = (lambda_handler tree fetch2 now cache).2) := by
  refine ⟨?_, ?_, fun _ => rfl⟩
  · intro p content hp hf
    exact cacheGet_foldl_mem _ _ _ _ hp hf
  · intro p hf hnk hmem
    rcases (mem_cacheKeys_foldl _ _ _).1 hmem with h | ⟨_, hs⟩
    · exact hnk h
    · rw [hf] at hs
      exact Bool.noConfusion hs

/-- C7, witness: with one fetch succeeding and the other failing, the run
stores the successful item with the run timestamp and skips the failed one. -/
theorem C7_witness :
    cacheGet (lambda_handler treeW fetchW 5 emptyCache).1
      "profiles/kentik_snmp/cisco/a.yml" = some ⟨"AAA", 5⟩ ∧
    "profiles/kentik_snmp/cisco/b.yml" ∉
      cacheKeys (lambda_handler treeW fetchW 5 emptyCache).1 :=
  ⟨(C7_theorem treeW fetchW 5 emptyCache).1 "profiles/kentik_snmp/cisco/a.yml" "AAA"
      (by decide) (by decide),
   (C7_theorem treeW fetchW 5 emptyCache).2.1 "profiles/kentik_snmp/cisco/b.yml"
      (by decide) (by decide)⟩

/-- C9: for every target name and candidate list, `select` returns either a
member of the supplied candidate list or the fixed fallback path — it is a
total function, so it never raises and never returns nothing — and on the
empty candidate list it returns the fixed fallback for every target name. -/
theorem C9_theorem :
    (∀ name : String, select name [] = fallbackPath) ∧
    (∀ (name : String) (candidates : List String),
        select name candidates = fallbackPath ∨ select name candidates ∈ candidates) := by
  refine ⟨fun _ => rfl, ?_⟩
  intro name candidates
  cases candidates with
  | nil => exact Or.inl rfl
  | cons c cs =>
    have hsel : select name (c :: cs) =
        (if scoreOf (normalizeTarget name) (cs.foldl (pickBetter (normalizeTarget name)) c) = 0
         then fallbackPath
         else cs.foldl (pickBetter (normalizeTarget name)) c) := rfl
    rw [hsel]
    split
    · exact Or.inl rfl
    · rcases foldl_pickBetter_mem (normalizeTarget name) cs c with h | h
      · rw [h]
        exact Or.inr (List.mem_cons_self c cs)
      · exact Or.inr (List.mem_cons_of_mem c h)

end MibConverter
